import Mathlib

/-!
Verification of the reactphysics3d narrow-phase geometry kernel.

The C++ sources use `decimal` (a floating-point alias).  The shallow embedding
instantiates `decimal` at `ℚ` for all routines that use only field operations
and comparisons, so that every definition is executable and concrete runs can
be checked with `decide`.  The vector `clamp` routine calls the external
normalization primitive (`getUnit`), which divides by a square root; that one
routine is embedded over `ℝ` at the end of the definitions section.

Source files:
* `src/unnamed/part_000` — mathematics_functions.cpp (geometric queries and
  Sutherland-Hodgman clipping);
* `src/src/components/ProxyShapesComponents.h` — the packed proxy-shape store.
-/

/-- A 3D vector with rational coordinates (shallow embedding of `Vector3`
with `decimal` instantiated at `ℚ`). -/
structure Vec3 where
  x : ℚ
  y : ℚ
  z : ℚ
deriving DecidableEq, Repr

namespace Vec3

/-- Componentwise addition (`Vector3::operator+`). -/
def add (u v : Vec3) : Vec3 := ⟨u.x + v.x, u.y + v.y, u.z + v.z⟩

/-- Componentwise subtraction (`Vector3::operator-`). -/
def sub (u v : Vec3) : Vec3 := ⟨u.x - v.x, u.y - v.y, u.z - v.z⟩

/-- Componentwise negation (`Vector3::operator-` unary). -/
def neg (v : Vec3) : Vec3 := ⟨-v.x, -v.y, -v.z⟩

/-- Scalar multiplication (`operator*(decimal, Vector3)`). -/
def smul (c : ℚ) (v : Vec3) : Vec3 := ⟨c * v.x, c * v.y, c * v.z⟩

instance : Add Vec3 := ⟨Vec3.add⟩
instance : Sub Vec3 := ⟨Vec3.sub⟩
instance : Neg Vec3 := ⟨Vec3.neg⟩
instance : SMul ℚ Vec3 := ⟨Vec3.smul⟩

/-- Dot product (`Vector3::dot`). -/
def dot (u v : Vec3) : ℚ := u.x * v.x + u.y * v.y + u.z * v.z

/-- Squared length (`Vector3::lengthSquare`). -/
def lengthSquare (v : Vec3) : ℚ := dot v v

end Vec3

open Vec3 (dot lengthSquare)

/-- Modelled from the spec: the fixed epsilon used by the degeneracy tests
("degenerate when `|B − A|²` is below a fixed epsilon").  The constant
`MACHINE_EPSILON` itself lives in `configuration.h`, which is not among the
provided sources; `decimal` defaults to IEEE single precision, whose machine
epsilon is `2^(-23)`. -/
def MACHINE_EPSILON : ℚ := 1 / 2 ^ 23

/-- Modelled from the spec: the scalar clamp used by
`computeClosestPointBetweenTwoSegments` ("Both final parameters are clamped
into `[0,1]`").  The helper is declared in `mathematics_functions.h`, which is
not among the provided sources; it clamps `value` into
`[lowerLimit, upperLimit]`. -/
def clampD (value lowerLimit upperLimit : ℚ) : ℚ :=
  min (max value lowerLimit) upperLimit

/-- Barycentric coordinates `(u, v, w)` of `p` in the triangle `(a, b, c)`
(`computeBarycentricCoordinatesInTriangle`, part_000 lines 37-53).  The C++
routine returns `u`, `v`, `w` through reference parameters; the embedding
returns the triple `(u, v, w)`. -/
def computeBarycentricCoordinatesInTriangle (a b c p : Vec3) : ℚ × ℚ × ℚ :=
  let v0 := b - a
  let v1 := c - a
  let v2 := p - a
  let d00 := dot v0 v0
  let d01 := dot v0 v1
  let d11 := dot v1 v1
  let d20 := dot v2 v0
  let d21 := dot v2 v1
  let denom := d00 * d11 - d01 * d01
  let v := (d11 * d20 - d01 * d21) / denom
  let w := (d00 * d21 - d01 * d20) / denom
  (1 - v - w, v, w)

/-- Closest point to `pointC` on the segment `(segPointA, segPointB)`
(`computeClosestPointOnSegment`, part_000 lines 64-86). -/
def computeClosestPointOnSegment (segPointA segPointB pointC : Vec3) : Vec3 :=
  let ab := segPointB - segPointA
  let abLengthSquare := lengthSquare ab
  if abLengthSquare < MACHINE_EPSILON then
    segPointA
  else
    let t := dot (pointC - segPointA) ab / abLengthSquare
    let t := if t < 0 then 0 else t
    let t := if t > 1 then 1 else t
    segPointA + t • ab

/-- Parameters `(s, t)` chosen by `computeClosestPointBetweenTwoSegments`
(part_000 lines 91-166), as a function of the five scalar quantities
`a = |d1|²`, `e = |d2|²`, `b = d1·d2`, `c = d1·r`, `f = d2·r` computed there.
Every branch of the C++ routine either returns early or falls through to
`closestPointSeg1 = seg1PointA + d1 * s; closestPointSeg2 = seg2PointA + d2 * t`,
so the routine is exactly determined by this parameter pair. -/
def closestSegmentParams (a e b c f : ℚ) : ℚ × ℚ :=
  if a ≤ MACHINE_EPSILON ∧ e ≤ MACHINE_EPSILON then
    (0, 0)
  else if a ≤ MACHINE_EPSILON then
    (0, clampD (f / e) 0 1)
  else if e ≤ MACHINE_EPSILON then
    (clampD (-c / a) 0 1, 0)
  else
    let denom := a * e - b * b
    let s := if denom ≠ 0 then clampD ((b * f - c * e) / denom) 0 1 else 0
    let t := (b * s + f) / e
    if t < 0 then (clampD (-c / a) 0 1, 0)
    else if t > 1 then (clampD ((b - c) / a) 0 1, 1)
    else (s, t)

/-- Closest points between two segments
(`computeClosestPointBetweenTwoSegments`, part_000 lines 91-166).  The C++
routine returns the two points through reference parameters; the embedding
returns the pair `(closestPointSeg1, closestPointSeg2)`. -/
def computeClosestPointBetweenTwoSegments (seg1PointA seg1PointB seg2PointA seg2PointB : Vec3) :
    Vec3 × Vec3 :=
  let d1 := seg1PointB - seg1PointA
  let d2 := seg2PointB - seg2PointA
  let r := seg1PointA - seg2PointA
  let st := closestSegmentParams (lengthSquare d1) (lengthSquare d2) (dot d1 d2)
      (dot d1 r) (dot d2 r)
  (seg1PointA + st.1 • d1, seg2PointA + st.2 • d2)

/-- Intersection parameter of a plane and a segment
(`computePlaneSegmentIntersection`, part_000 lines 173-189).  Returns `t` with
`P = segA + t (segB − segA)`, or the untouched sentinel `-1` when the segment
is (near-)parallel to the plane. -/
def computePlaneSegmentIntersection (segA segB : Vec3) (planeD : ℚ) (planeNormal : Vec3) : ℚ :=
  let parallelEpsilon : ℚ := 1 / 10000
  let t : ℚ := -1
  let ab := segB - segA
  let nDotAB := dot planeNormal ab
  if |nDotAB| > parallelEpsilon then (planeD - dot planeNormal segA) / nDotAB
  else t

/-- Distance from `point` to the line through `linePointA` and `linePointB`
(`computeDistancePointToLineDistance`, part_000 lines 192-201), stated on
squared quantities to stay inside `ℚ`; only recorded for completeness. -/
def computeDistancePointToLineSquare (linePointA linePointB point : Vec3) : ℚ :=
  let distABSquare := lengthSquare (linePointB - linePointA)
  if distABSquare < MACHINE_EPSILON * MACHINE_EPSILON then
    lengthSquare (point - linePointA)
  else
    let crossv :=
      (⟨(point - linePointA).y * (point - linePointB).z - (point - linePointA).z * (point - linePointB).y,
        (point - linePointA).z * (point - linePointB).x - (point - linePointA).x * (point - linePointB).z,
        (point - linePointA).x * (point - linePointB).y - (point - linePointA).y * (point - linePointB).x⟩ : Vec3)
    lengthSquare crossv / distABSquare

/-- One plane of the segment-clipping loop (`clipSegmentWithPlanes` body,
part_000 lines 222-267): clips the working segment `(v1, v2)` against the
half-space given by `planesPoints[p]` and `planesNormals[p]` and returns the
accumulated `outputVertices`. -/
def clipSegmentStep (planePoint planeNormal v1 v2 : Vec3) : List Vec3 :=
  let v1DotN := dot (v1 - planePoint) planeNormal
  let v2DotN := dot (v2 - planePoint) planeNormal
  if v2DotN ≥ 0 then
    (if v1DotN < 0 then
      let t := computePlaneSegmentIntersection v1 v2 (dot planeNormal planePoint) planeNormal
      if 0 ≤ t ∧ t ≤ 1 then [v1 + t • (v2 - v1)] else [v2]
    else [v1]) ++ [v2]
  else
    if v1DotN ≥ 0 then
      let t := computePlaneSegmentIntersection v1 v2 (-(dot planeNormal planePoint)) (-planeNormal)
      [v1] ++ (if 0 ≤ t ∧ t ≤ 1 then [v1 + t • (v2 - v1)] else [])
    else []

/-- The per-plane loop of `clipSegmentWithPlanes` (part_000 lines 215-270),
carrying `inputVertices` and `outputVertices`.  The early return on an empty
working set yields `inputVertices` (empty).  The C++ `assert
(inputVertices.size() == 2)` is embedded as the `none` result: `none` means
the assertion fails on that run. -/
def clipSegmentGo (input output : List Vec3) : List (Vec3 × Vec3) → Option (List Vec3)
  | [] => some output
  | (planePoint, planeNormal) :: rest =>
    match input with
    | [] => some []
    | [v1, v2] =>
      let out := clipSegmentStep planePoint planeNormal v1 v2
      clipSegmentGo out out rest
    | _ => none

/-- Sutherland-Hodgman clipping of a segment against a list of half-spaces
(`clipSegmentWithPlanes`, part_000 lines 205-273).  The result is the final
`outputVertices`; `none` encodes a failure of the in-loop size assertion. -/
def clipSegmentWithPlanes (segA segB : Vec3) (planesPoints planesNormals : List Vec3) :
    Option (List Vec3) :=
  clipSegmentGo [segA, segB] [] (planesPoints.zip planesNormals)

/-- One edge of the polygon-clipping loop (`clipPolygonWithPlanes` body,
part_000 lines 295-335): the vertices pushed for the edge `(v1, v2)`. -/
def clipPolygonEdge (planePoint planeNormal v1 v2 : Vec3) : List Vec3 :=
  let v1DotN := dot (v1 - planePoint) planeNormal
  let v2DotN := dot (v2 - planePoint) planeNormal
  if v2DotN ≥ 0 then
    (if v1DotN < 0 then
      let t := computePlaneSegmentIntersection v1 v2 (dot planeNormal planePoint) planeNormal
      if 0 ≤ t ∧ t ≤ 1 then [v1 + t • (v2 - v1)] else [v2]
    else []) ++ [v2]
  else
    if v1DotN ≥ 0 then
      let t := computePlaneSegmentIntersection v1 v2 (-(dot planeNormal planePoint)) (-planeNormal)
      if 0 ≤ t ∧ t ≤ 1 then [v1 + t • (v2 - v1)] else [v1]
    else []

/-- The predecessor list of a polygon's vertex list: element `i` is the vertex
at index `i - 1`, and element `0` is the last vertex.  This mirrors the
`vStart` index of `clipPolygonWithPlanes` (part_000 lines 290-338), which
starts at `size - 1` and then trails `vEnd` by one. -/
def prevVertices (verts : List Vec3) : List Vec3 :=
  match verts.getLast? with
  | none => []
  | some last => last :: verts.dropLast

/-- The edge list of a polygon: pairs `(vStart, vEnd)` exactly as enumerated
by the inner loop of `clipPolygonWithPlanes` (part_000 lines 293-339). -/
def polygonEdges (verts : List Vec3) : List (Vec3 × Vec3) :=
  (prevVertices verts).zip verts

/-- Accumulation of `outputVertices` over the polygon's edges (inner loop of
`clipPolygonWithPlanes`). -/
def clipPolygonEdges (planePoint planeNormal : Vec3) : List (Vec3 × Vec3) → List Vec3
  | [] => []
  | e :: rest => clipPolygonEdge planePoint planeNormal e.1 e.2 ++ clipPolygonEdges planePoint planeNormal rest

/-- The per-plane loop of `clipPolygonWithPlanes` (part_000 lines 286-342),
carrying `inputVertices` and `outputVertices`. -/
def clipPolygonGo (input output : List Vec3) : List (Vec3 × Vec3) → List Vec3
  | [] => output
  | (planePoint, planeNormal) :: rest =>
    let out := clipPolygonEdges planePoint planeNormal (polygonEdges input)
    clipPolygonGo out out rest

/-- Sutherland-Hodgman clipping of a polygon against a list of half-spaces
(`clipPolygonWithPlanes`, part_000 lines 277-345). -/
def clipPolygonWithPlanes (polygonVertices planesPoints planesNormals : List Vec3) : List Vec3 :=
  clipPolygonGo polygonVertices [] (planesPoints.zip planesNormals)

/-- The proxy-shape component store (`ProxyShapesComponents`,
ProxyShapesComponents.h).  Entities are opaque integer-like handles, embedded
as `ℕ`; the entity-to-index map is an association list; the parallel
per-component arrays are lists indexed by the component index.  The pointer
arrays (`mProxyShapes`, `mCollisionShapes`) are non-owning back-references and
are omitted from the embedding: no claim reads them. -/
structure ProxyShapesComponents where
  mSleepingStartIndex : ℕ
  mMapEntityToComponentIndex : List (ℕ × ℕ)
  mBodiesEntities : List ℕ
  mProxyShapesEntities : List ℕ
  mBroadPhaseIds : List ℤ
  mMasses : List ℚ
  mCollisionCategoryBits : List ℕ
  mCollideWithMaskBits : List ℕ
deriving DecidableEq, Repr

namespace ProxyShapesComponents

/-- Membership test of the entity-to-index map (`Map::containsKey`). -/
def containsKey (s : ProxyShapesComponents) (entity : ℕ) : Bool :=
  (s.mMapEntityToComponentIndex.lookup entity).isSome

/-- Return the broad-phase id of a proxy shape
(`ProxyShapesComponents::getBroadPhaseId`, ProxyShapesComponents.h lines
236-241).  The C++ code asserts that the entity is present and then reads
`mBroadPhaseIds[mMapEntityToComponentIndex[proxyShapeEntity]]`; the embedding
returns `0` on the assertion-violating path, which no theorem relies on. -/
def getBroadPhaseId (s : ProxyShapesComponents) (proxyShapeEntity : ℕ) : ℤ :=
  match s.mMapEntityToComponentIndex.lookup proxyShapeEntity with
  | some index => s.mBroadPhaseIds.getD index 0
  | none => 0

/-- Set the broad-phase id of a proxy shape
(`ProxyShapesComponents::setBroadPhaseId`, ProxyShapesComponents.h lines
244-249).  The C++ code asserts that the entity is present and then writes
`mBroadPhaseIds[mMapEntityToComponentIndex[proxyShapeEntity]]`; the embedding
leaves the store unchanged on the assertion-violating path, which no theorem
relies on. -/
def setBroadPhaseId (s : ProxyShapesComponents) (proxyShapeEntity : ℕ) (broadPhaseId : ℤ) :
    ProxyShapesComponents :=
  match s.mMapEntityToComponentIndex.lookup proxyShapeEntity with
  | some index => { s with mBroadPhaseIds := s.mBroadPhaseIds.set index broadPhaseId }
  | none => s

end ProxyShapesComponents

/-- A 3D vector with real coordinates, used for the one routine whose result
is irrational in general (`clamp`, which normalizes through a square root). -/
structure Vec3R where
  x : ℝ
  y : ℝ
  z : ℝ

namespace Vec3R

/-- Scalar multiplication on real vectors. -/
def smul (c : ℝ) (v : Vec3R) : Vec3R := ⟨c * v.x, c * v.y, c * v.z⟩

instance : SMul ℝ Vec3R := ⟨Vec3R.smul⟩

/-- Squared length of a real vector (`Vector3::lengthSquare`). -/
def lengthSquare (v : Vec3R) : ℝ := v.x * v.x + v.y * v.y + v.z * v.z

/-- Length of a real vector (`Vector3::length`). -/
noncomputable def length (v : Vec3R) : ℝ := Real.sqrt (lengthSquare v)

/-- Modelled from the spec: normalization from the external VectorAlgebra
dependency ("dot/cross product, length, normalization ... Consumed, not
specified").  `getUnit` returns the unit-length vector in the direction of
`v`, i.e. `v` scaled by the inverse of its length. -/
noncomputable def getUnit (v : Vec3R) : Vec3R := (1 / length v) • v

end Vec3R

/-- Clamp a vector to a maximum length (`clamp`, part_000 lines 56-61). -/
noncomputable def clampVec (vector : Vec3R) (maxLength : ℝ) : Vec3R :=
  if Vec3R.lengthSquare vector > maxLength * maxLength then
    maxLength • Vec3R.getUnit vector
  else vector

/-- The point of the segment `(p, q)` at parameter `s`, i.e.
`p + s * (q - p)`; the closed segment is the image of `[0, 1]`. -/
def segPoint (p q : Vec3) (s : ℚ) : Vec3 := p + s • (q - p)

/-- Squared distance between two points. -/
def distSq (u v : Vec3) : ℚ := lengthSquare (u - v)

/-- The pair `out` realizes the minimum distance between the closed segments
`(p1, q1)` and `(p2, q2)`: each returned point lies on its segment, and no
pair of segment points is strictly closer.  Stated on squared distances,
which order exactly as distances do. -/
def IsOptimalPair (p1 q1 p2 q2 : Vec3) (out : Vec3 × Vec3) : Prop :=
  (∃ s, 0 ≤ s ∧ s ≤ 1 ∧ out.1 = segPoint p1 q1 s) ∧
  (∃ t, 0 ≤ t ∧ t ≤ 1 ∧ out.2 = segPoint p2 q2 t) ∧
  ∀ s t, 0 ≤ s → s ≤ 1 → 0 ≤ t → t ≤ 1 →
    distSq out.1 out.2 ≤ distSq (segPoint p1 q1 s) (segPoint p2 q2 t)

/-- The squared distance between the parameter-`s` point of segment 1 and the
parameter-`t` point of segment 2, as a quadratic in `(s, t)`:
`rho + a s² + e t² + 2 c s − 2 f t − 2 b s t`, with the scalar coefficients of
`computeClosestPointBetweenTwoSegments`. -/
def segDistQuad (a e b c f rho s t : ℚ) : ℚ :=
  rho + a * s ^ 2 + e * t ^ 2 + 2 * c * s - 2 * f * t - 2 * b * s * t

/-- One-coordinate optimality condition for minimizing a convex function over
`[0, 1]`: at the value `v`, the partial derivative `g` pushes into the
feasible interval (Karush-Kuhn-Tucker condition for a box constraint). -/
def KKTCoord (g v : ℚ) : Prop := (v = 0 ∧ 0 ≤ g) ∨ (v = 1 ∧ g ≤ 0) ∨ g = 0

/-! ## Basic component lemmas -/

namespace Vec3

@[simp] theorem add_x (u v : Vec3) : (u + v).x = u.x + v.x := rfl
@[simp] theorem add_y (u v : Vec3) : (u + v).y = u.y + v.y := rfl
@[simp] theorem add_z (u v : Vec3) : (u + v).z = u.z + v.z := rfl
@[simp] theorem sub_x (u v : Vec3) : (u - v).x = u.x - v.x := rfl
@[simp] theorem sub_y (u v : Vec3) : (u - v).y = u.y - v.y := rfl
@[simp] theorem sub_z (u v : Vec3) : (u - v).z = u.z - v.z := rfl
@[simp] theorem neg_x (v : Vec3) : (-v).x = -v.x := rfl
@[simp] theorem neg_y (v : Vec3) : (-v).y = -v.y := rfl
@[simp] theorem neg_z (v : Vec3) : (-v).z = -v.z := rfl
@[simp] theorem smul_x (c : ℚ) (v : Vec3) : (c • v).x = c * v.x := rfl
@[simp] theorem smul_y (c : ℚ) (v : Vec3) : (c • v).y = c * v.y := rfl
@[simp] theorem smul_z (c : ℚ) (v : Vec3) : (c • v).z = c * v.z := rfl

theorem ext_iff {u v : Vec3} : u = v ↔ u.x = v.x ∧ u.y = v.y ∧ u.z = v.z := by
  constructor
  · rintro rfl; exact ⟨rfl, rfl, rfl⟩
  · rintro ⟨hx, hy, hz⟩; cases u; cases v; simp_all

end Vec3

namespace Vec3R

@[simp] theorem smulR_x (c : ℝ) (v : Vec3R) : (c • v).x = c * v.x := rfl
@[simp] theorem smulR_y (c : ℝ) (v : Vec3R) : (c • v).y = c * v.y := rfl
@[simp] theorem smulR_z (c : ℝ) (v : Vec3R) : (c • v).z = c * v.z := rfl

theorem extR_iff {u v : Vec3R} : u = v ↔ u.x = v.x ∧ u.y = v.y ∧ u.z = v.z := by
  constructor
  · rintro rfl; exact ⟨rfl, rfl, rfl⟩
  · rintro ⟨hx, hy, hz⟩; cases u; cases v; simp_all

end Vec3R

/-! ## C1: segment clipping against an empty plane list -/

/-- C1 (counterexample).  The claim states that `clipSegmentWithPlanes` with
empty plane lists returns the original two points `[segA, segB]`; at
`segA = (0,0,0)`, `segB = (1,0,0)` the function instead returns the empty
list, because the returned buffer `outputVertices` is never written when the
plane loop performs no iteration. -/
theorem c1_counterexample :
    clipSegmentWithPlanes ⟨0, 0, 0⟩ ⟨1, 0, 0⟩ [] [] ≠ some [⟨0, 0, 0⟩, ⟨1, 0, 0⟩] := by
  decide

/-- C1 (amended).  For every pair of input points, calling
`clipSegmentWithPlanes` with empty `planesPoints` and `planesNormals` lists
returns the empty vertex list: the function returns `outputVertices`, which
the zero-iteration plane loop never writes. -/
theorem c1_empty_planes_returns_empty (segA segB : Vec3) :
    clipSegmentWithPlanes segA segB [] [] = some [] := rfl

/-! ## C2: the in-loop size assertion of segment clipping -/

/-- C2 (failing input).  The claim states that the working vertex set at the
start of each half-space iteration is empty or has exactly two vertices, i.e.
that `assert(inputVertices.size() == 2)` never fails.  On the segment from
`(0, 0, 1/20000)` to `(0, 0, -1/50000)` clipped against the plane through the
origin with normal `(0, 0, 1)` listed twice, the first iteration keeps only
the inside vertex: the crossing edge has `|normal·(v2−v1)| = 7/100000`, below
the parallel threshold `1/10000`, so `computePlaneSegmentIntersection`
returns the sentinel `-1` and no intersection point is added.  The second
iteration then starts from a one-vertex working set and the assertion fails
(encoded as the `none` result of the embedding). -/
theorem c2_assertion_fails :
    clipSegmentWithPlanes ⟨0, 0, 1/20000⟩ ⟨0, 0, -1/50000⟩
      [⟨0, 0, 0⟩, ⟨0, 0, 0⟩] [⟨0, 0, 1⟩, ⟨0, 0, 1⟩] = none := by
  norm_num [clipSegmentWithPlanes, clipSegmentGo, clipSegmentStep,
    computePlaneSegmentIntersection, Vec3.dot, Vec3.lengthSquare, abs_of_nonneg]

/-! ## Dot-product algebra helpers -/

theorem dot_add_right (u v w : Vec3) : dot u (v + w) = dot u v + dot u w := by
  simp [Vec3.dot]; ring

theorem dot_smul_right (c : ℚ) (u v : Vec3) : dot u (c • v) = c * dot u v := by
  simp [Vec3.dot]; ring

theorem dot_self_sub_self (a w : Vec3) : dot (a - a) w = 0 := by
  simp [Vec3.dot]

theorem dot_comm (u v : Vec3) : dot u v = dot v u := by
  simp [Vec3.dot]; ring

/-! ## C6: barycentric coordinates -/

/-- C6.  For a triangle `(a, b, c)` with nonzero normal-equations denominator
`d00·d11 − d01·d01`, the barycentric coordinates `(u, v, w)` of any point `p`
sum to `1`, and the vertices themselves receive the coordinates `(1,0,0)`,
`(0,1,0)`, `(0,0,1)`. -/
theorem c6_barycentric_coordinates (a b c p : Vec3)
    (hd : dot (b - a) (b - a) * dot (c - a) (c - a)
        - dot (b - a) (c - a) * dot (b - a) (c - a) ≠ 0) :
    ((computeBarycentricCoordinatesInTriangle a b c p).1
      + (computeBarycentricCoordinatesInTriangle a b c p).2.1
      + (computeBarycentricCoordinatesInTriangle a b c p).2.2 = 1) ∧
    computeBarycentricCoordinatesInTriangle a b c a = (1, 0, 0) ∧
    computeBarycentricCoordinatesInTriangle a b c b = (0, 1, 0) ∧
    computeBarycentricCoordinatesInTriangle a b c c = (0, 0, 1) := by
  refine ⟨?_, ?_, ?_, ?_⟩
  · simp only [computeBarycentricCoordinatesInTriangle]
    ring
  · simp only [computeBarycentricCoordinatesInTriangle, Prod.mk.injEq]
    rw [dot_self_sub_self, dot_self_sub_self]
    norm_num
  · simp only [computeBarycentricCoordinatesInTriangle, Prod.mk.injEq]
    rw [dot_comm (b - a) (b - a)]
    refine ⟨?_, ?_, ?_⟩ <;> field_simp <;> ring
  · simp only [computeBarycentricCoordinatesInTriangle, Prod.mk.injEq]
    rw [dot_comm (c - a) (b - a)]
    refine ⟨?_, ?_, ?_⟩ <;> field_simp <;> ring

/-- C6 (witness).  The triangle `((0,0,0), (1,0,0), (0,1,0))` has denominator
`1 ≠ 0`, and the theorem instantiates on it. -/
theorem c6_witness :
    (dot ((⟨1,0,0⟩ : Vec3) - ⟨0,0,0⟩) ((⟨1,0,0⟩ : Vec3) - ⟨0,0,0⟩)
        * dot ((⟨0,1,0⟩ : Vec3) - ⟨0,0,0⟩) ((⟨0,1,0⟩ : Vec3) - ⟨0,0,0⟩)
      - dot ((⟨1,0,0⟩ : Vec3) - ⟨0,0,0⟩) ((⟨0,1,0⟩ : Vec3) - ⟨0,0,0⟩)
        * dot ((⟨1,0,0⟩ : Vec3) - ⟨0,0,0⟩) ((⟨0,1,0⟩ : Vec3) - ⟨0,0,0⟩) ≠ 0) ∧
    (((computeBarycentricCoordinatesInTriangle ⟨0,0,0⟩ ⟨1,0,0⟩ ⟨0,1,0⟩ ⟨1,1,1⟩).1
      + (computeBarycentricCoordinatesInTriangle ⟨0,0,0⟩ ⟨1,0,0⟩ ⟨0,1,0⟩ ⟨1,1,1⟩).2.1
      + (computeBarycentricCoordinatesInTriangle ⟨0,0,0⟩ ⟨1,0,0⟩ ⟨0,1,0⟩ ⟨1,1,1⟩).2.2 = 1) ∧
    computeBarycentricCoordinatesInTriangle ⟨0,0,0⟩ ⟨1,0,0⟩ ⟨0,1,0⟩ ⟨0,0,0⟩ = (1, 0, 0) ∧
    computeBarycentricCoordinatesInTriangle ⟨0,0,0⟩ ⟨1,0,0⟩ ⟨0,1,0⟩ ⟨1,0,0⟩ = (0, 1, 0) ∧
    computeBarycentricCoordinatesInTriangle ⟨0,0,0⟩ ⟨1,0,0⟩ ⟨0,1,0⟩ ⟨0,1,0⟩ = (0, 0, 1)) :=
  ⟨by norm_num [Vec3.dot],
    c6_barycentric_coordinates ⟨0,0,0⟩ ⟨1,0,0⟩ ⟨0,1,0⟩ ⟨1,1,1⟩ (by norm_num [Vec3.dot])⟩

/-! ## C7: plane/segment intersection -/

/-- C7.  Whenever `computePlaneSegmentIntersection` returns a value `t` in
`[0, 1]`, the point `segA + t (segB − segA)` lies on the plane
`planeNormal · X = planeD`; and whenever `|planeNormal · (segB − segA)|` is at
most the parallel threshold `1/10000`, the returned value is negative (the
untouched `-1` sentinel). -/
theorem c7_plane_segment_intersection (segA segB : Vec3) (planeD : ℚ) (planeNormal : Vec3) :
    (0 ≤ computePlaneSegmentIntersection segA segB planeD planeNormal →
      computePlaneSegmentIntersection segA segB planeD planeNormal ≤ 1 →
      dot planeNormal
        (segA + (computePlaneSegmentIntersection segA segB planeD planeNormal) • (segB - segA))
        = planeD) ∧
    (|dot planeNormal (segB - segA)| ≤ 1 / 10000 →
      computePlaneSegmentIntersection segA segB planeD planeNormal < 0) := by
  simp only [computePlaneSegmentIntersection]
  split_ifs with h
  · constructor
    · intro _ _
      have hne : dot planeNormal (segB - segA) ≠ 0 := by
        intro h0
        rw [h0] at h
        norm_num at h
      rw [dot_add_right, dot_smul_right, div_mul_cancel₀ _ hne]
      ring
    · intro habs
      exfalso
      exact absurd h (not_lt.mpr habs)
  · constructor
    · intro h0 _
      exfalso
      norm_num at h0
    · intro _
      norm_num

/-- C7 (witness).  On the segment from the origin to `(0,0,1)` and the plane
`z = 1/2` the returned parameter is `1/2 ∈ [0,1]` and the intersection point
lies on the plane; on the same segment and the plane with normal `(1,0,0)`
(segment parallel to the plane) the sentinel is negative. -/
theorem c7_witness :
    dot (⟨0,0,1⟩ : Vec3)
      ((⟨0,0,0⟩ : Vec3) + (computePlaneSegmentIntersection ⟨0,0,0⟩ ⟨0,0,1⟩ (1/2) ⟨0,0,1⟩)
        • ((⟨0,0,1⟩ : Vec3) - ⟨0,0,0⟩)) = 1/2 ∧
    computePlaneSegmentIntersection ⟨0,0,0⟩ ⟨0,0,1⟩ (1/2) ⟨1,0,0⟩ < 0 :=
  ⟨(c7_plane_segment_intersection ⟨0,0,0⟩ ⟨0,0,1⟩ (1/2) ⟨0,0,1⟩).1
      (by norm_num [computePlaneSegmentIntersection, Vec3.dot, abs_of_nonneg])
      (by norm_num [computePlaneSegmentIntersection, Vec3.dot, abs_of_nonneg]),
    (c7_plane_segment_intersection ⟨0,0,0⟩ ⟨0,0,1⟩ (1/2) ⟨1,0,0⟩).2
      (by norm_num [Vec3.dot])⟩

/-! ## C8 and C9: polygon clipping -/

theorem getLast?_mem_self {l : List Vec3} {a : Vec3} (h : l.getLast? = some a) : a ∈ l := by
  rcases List.mem_getLast?_eq_getLast (l := l) (x := a) (Option.mem_def.mpr h) with ⟨hne, rfl⟩
  exact List.getLast_mem hne

theorem prevVertices_length (verts : List Vec3) :
    (prevVertices verts).length = verts.length := by
  unfold prevVertices
  rcases h : verts.getLast? with _ | last
  · rw [List.getLast?_eq_none_iff] at h
    simp [h]
  · have hne : verts ≠ [] := by
      rintro rfl
      simp at h
    have hpos : 0 < verts.length := List.length_pos.mpr hne
    simp only [List.length_cons, List.length_dropLast]
    omega

theorem prevVertices_subset (verts : List Vec3) : ∀ w ∈ prevVertices verts, w ∈ verts := by
  unfold prevVertices
  rcases h : verts.getLast? with _ | last
  · simp
  · intro w hw
    rcases List.mem_cons.mp hw with rfl | hw
    · exact getLast?_mem_self h
    · exact List.mem_of_mem_dropLast hw

theorem clipPolygonEdges_all_inside (planePoint planeNormal : Vec3) :
    ∀ (l1 l2 : List Vec3), l1.length = l2.length →
      (∀ v ∈ l1, 0 ≤ dot (v - planePoint) planeNormal) →
      (∀ v ∈ l2, 0 ≤ dot (v - planePoint) planeNormal) →
      clipPolygonEdges planePoint planeNormal (l1.zip l2) = l2 := by
  intro l1
  induction l1 with
  | nil =>
    intro l2 hlen _ _
    have : l2 = [] := List.length_eq_zero.mp (by simpa using hlen.symm)
    subst this
    rfl
  | cons x xs ih =>
    intro l2 hlen h1 h2
    rcases l2 with _ | ⟨y, ys⟩
    · simp at hlen
    · have hx : 0 ≤ dot (x - planePoint) planeNormal := h1 x (List.mem_cons_self x xs)
      have hy : 0 ≤ dot (y - planePoint) planeNormal := h2 y (List.mem_cons_self y ys)
      have hedge : clipPolygonEdge planePoint planeNormal x y = [y] := by
        simp only [clipPolygonEdge]
        rw [if_pos hy, if_neg (not_lt.mpr hx)]
        simp
      show clipPolygonEdge planePoint planeNormal x y
          ++ clipPolygonEdges planePoint planeNormal (xs.zip ys) = y :: ys
      rw [hedge, ih ys (by simpa using hlen) (fun v hv => h1 v (List.mem_cons_of_mem x hv))
        (fun v hv => h2 v (List.mem_cons_of_mem y hv))]
      rfl

/-- C8.  Clipping a polygon against a single half-space that contains every
vertex (signed distance `≥ 0`, vertices exactly on the plane included)
returns the polygon unchanged: same vertex count, same values, same order. -/
theorem c8_clip_contained_polygon_identity (polygonVertices : List Vec3)
    (planePoint planeNormal : Vec3)
    (h : ∀ v ∈ polygonVertices, 0 ≤ dot (v - planePoint) planeNormal) :
    clipPolygonWithPlanes polygonVertices [planePoint] [planeNormal] = polygonVertices := by
  show clipPolygonEdges planePoint planeNormal (polygonEdges polygonVertices) = polygonVertices
  exact clipPolygonEdges_all_inside planePoint planeNormal _ _
    (prevVertices_length polygonVertices)
    (fun v hv => h v (prevVertices_subset polygonVertices v hv)) h

/-- C8 (witness).  The unit square in the plane `z = 0` is entirely inside
the half-space with plane point `(0, 0, -1)` and normal `(0, 0, 1)`, and
clipping returns it unchanged. -/
theorem c8_witness :
    (∀ v ∈ [(⟨0,0,0⟩ : Vec3), ⟨1,0,0⟩, ⟨1,1,0⟩, ⟨0,1,0⟩],
      0 ≤ dot (v - ⟨0,0,-1⟩) ⟨0,0,1⟩) ∧
    clipPolygonWithPlanes [⟨0,0,0⟩, ⟨1,0,0⟩, ⟨1,1,0⟩, ⟨0,1,0⟩] [⟨0,0,-1⟩] [⟨0,0,1⟩]
      = [⟨0,0,0⟩, ⟨1,0,0⟩, ⟨1,1,0⟩, ⟨0,1,0⟩] := by
  have h : ∀ v ∈ [(⟨0,0,0⟩ : Vec3), ⟨1,0,0⟩, ⟨1,1,0⟩, ⟨0,1,0⟩],
      0 ≤ dot (v - ⟨0,0,-1⟩) ⟨0,0,1⟩ := by
    intro v hv
    fin_cases hv <;> norm_num [Vec3.dot]
  exact ⟨h, c8_clip_contained_polygon_identity _ _ _ h⟩

theorem clipPolygonGo_nil_input :
    ∀ planes : List (Vec3 × Vec3), clipPolygonGo [] [] planes = [] := by
  intro planes
  induction planes with
  | nil => rfl
  | cons p rest ih =>
    obtain ⟨planePoint, planeNormal⟩ := p
    exact ih

/-- C9.  Clipping an empty polygon against any equal-length plane lists
returns the empty list: the per-edge loop's range is empty for an empty
vertex list, so the wrapped start index `size - 1` is never used to read a
vertex (the embedding's edge list `polygonEdges []` is empty), and each plane
iteration turns an empty input into an empty output without any early-exit
check. -/
theorem c9_clip_empty_polygon (planesPoints planesNormals : List Vec3)
    (_h : planesPoints.length = planesNormals.length) :
    clipPolygonWithPlanes [] planesPoints planesNormals = [] :=
  clipPolygonGo_nil_input (planesPoints.zip planesNormals)

/-- C9 (witness).  Concrete instance with two planes and an empty polygon. -/
theorem c9_witness :
    ([(⟨0,0,0⟩ : Vec3), ⟨1,1,1⟩].length = [(⟨0,0,1⟩ : Vec3), ⟨1,0,0⟩].length) ∧
    clipPolygonWithPlanes [] [⟨0,0,0⟩, ⟨1,1,1⟩] [⟨0,0,1⟩, ⟨1,0,0⟩] = [] :=
  ⟨rfl, c9_clip_empty_polygon [⟨0,0,0⟩, ⟨1,1,1⟩] [⟨0,0,1⟩, ⟨1,0,0⟩] rfl⟩

/-! ## C10: broad-phase id accessors of the proxy-shape store -/

theorem getD_set_self (l : List ℤ) (i : ℕ) (x d : ℤ) (h : i < l.length) :
    (l.set i x).getD i d = x := by
  induction l generalizing i with
  | nil => simp at h
  | cons a as ih =>
    cases i with
    | zero => simp
    | succ n =>
      simp only [List.set_cons_succ, List.getD_cons_succ]
      exact ih n (by simpa using h)

/-- C10.  When entity `e` is present in the entity-to-index map (the
precondition asserted by both accessors) and the store invariant holds (the
mapped index is in range of the broad-phase id array), setting the
broad-phase id and reading it back returns the written id.  Absence of the
entity is a fatal assertion in the C++ code, embedded as the hypotheses of
this theorem: the accessors are only specified on present entities. -/
theorem c10_set_get_broad_phase_id (s : ProxyShapesComponents) (e : ℕ) (i : ℕ)
    (broadPhaseId : ℤ)
    (hpresent : s.mMapEntityToComponentIndex.lookup e = some i)
    (hrange : i < s.mBroadPhaseIds.length) :
    ProxyShapesComponents.getBroadPhaseId
      (ProxyShapesComponents.setBroadPhaseId s e broadPhaseId) e = broadPhaseId := by
  unfold ProxyShapesComponents.getBroadPhaseId ProxyShapesComponents.setBroadPhaseId
  rw [hpresent]
  simp only [hpresent]
  exact getD_set_self _ _ _ _ hrange

/-- C10 (witness).  In a one-row store holding entity `7` at index `0`, the
entity is present, the index is in range, and writing then reading the
broad-phase id returns the written value `42`. -/
theorem c10_witness :
    ((⟨0, [(7, 0)], [3], [7], [-1], [1], [1], [65535]⟩ :
        ProxyShapesComponents).mMapEntityToComponentIndex.lookup 7 = some 0) ∧
    (0 < (⟨0, [(7, 0)], [3], [7], [-1], [1], [1], [65535]⟩ :
        ProxyShapesComponents).mBroadPhaseIds.length) ∧
    ProxyShapesComponents.getBroadPhaseId
      (ProxyShapesComponents.setBroadPhaseId
        ⟨0, [(7, 0)], [3], [7], [-1], [1], [1], [65535]⟩ 7 42) 7 = 42 :=
  ⟨rfl, by decide,
    c10_set_get_broad_phase_id _ 7 0 42 rfl (by decide)⟩

/-! ## C5: vector clamp -/

theorem lengthSquareR_nonneg (v : Vec3R) : 0 ≤ Vec3R.lengthSquare v := by
  unfold Vec3R.lengthSquare
  nlinarith [mul_self_nonneg v.x, mul_self_nonneg v.y, mul_self_nonneg v.z]

theorem lengthR_nonneg (v : Vec3R) : 0 ≤ Vec3R.length v := Real.sqrt_nonneg _

theorem mul_self_lengthR (v : Vec3R) : Vec3R.length v * Vec3R.length v = Vec3R.lengthSquare v :=
  Real.mul_self_sqrt (lengthSquareR_nonneg v)

theorem lengthSquareR_smul (c : ℝ) (v : Vec3R) :
    Vec3R.lengthSquare (c • v) = c ^ 2 * Vec3R.lengthSquare v := by
  unfold Vec3R.lengthSquare
  simp only [Vec3R.smulR_x, Vec3R.smulR_y, Vec3R.smulR_z]
  ring

theorem lengthR_smul (c : ℝ) (v : Vec3R) :
    Vec3R.length (c • v) = |c| * Vec3R.length v := by
  unfold Vec3R.length
  rw [lengthSquareR_smul, Real.sqrt_mul (sq_nonneg c), Real.sqrt_sq_eq_abs]

theorem smulR_smulR (c d : ℝ) (v : Vec3R) : c • (d • v) = (c * d) • v := by
  rw [Vec3R.extR_iff]
  refine ⟨?_, ?_, ?_⟩ <;> simp <;> ring

theorem lengthR_le_iff (v : Vec3R) (L : ℝ) (hL : 0 ≤ L) :
    Vec3R.length v ≤ L ↔ Vec3R.lengthSquare v ≤ L * L := by
  constructor
  · intro h
    rw [← mul_self_lengthR]
    exact mul_self_le_mul_self (lengthR_nonneg v) h
  · intro h
    have := Real.sqrt_le_sqrt h
    rwa [Real.sqrt_mul_self hL] at this

/-- C5 (counterexample).  The claim quantifies over every maximum length `L`,
but at `v = (1,0,0)` and `L = -1` the guard `|v|² > L²` is false, so `clamp`
returns `v` unchanged, whose length `1` is not at most `L = -1`.  The claim's
"result length at most L always" therefore fails for negative `L`. -/
theorem c5_counterexample :
    clampVec ⟨1, 0, 0⟩ (-1) = ⟨1, 0, 0⟩ ∧
    ¬ (Vec3R.length (clampVec ⟨1, 0, 0⟩ (-1)) ≤ -1) := by
  have h : clampVec ⟨1, 0, 0⟩ (-1) = ⟨1, 0, 0⟩ := by
    unfold clampVec
    rw [if_neg]
    norm_num [Vec3R.lengthSquare]
  have hlen : Vec3R.length ⟨1, 0, 0⟩ = 1 := by
    unfold Vec3R.length Vec3R.lengthSquare
    norm_num
  refine ⟨h, ?_⟩
  rw [h, hlen]
  norm_num

/-- C5 (amended).  For every vector `v` and nonnegative maximum length `L`:
the result of `clamp(v, L)` has length at most `L`; whenever `|v| ≤ L` the
result is `v` exactly (in particular a zero-length vector is returned
unchanged); and whenever `|v| > L` the result has length exactly `L` and is
the nonnegative scaling `(L / |v|) • v` of `v` (same direction). -/
theorem c5_clamp_length (v : Vec3R) (L : ℝ) (hL : 0 ≤ L) :
    Vec3R.length (clampVec v L) ≤ L ∧
    (Vec3R.length v ≤ L → clampVec v L = v) ∧
    (L < Vec3R.length v →
      Vec3R.length (clampVec v L) = L ∧ clampVec v L = (L / Vec3R.length v) • v) := by
  by_cases hcond : Vec3R.lengthSquare v > L * L
  · have hlenpos : 0 < Vec3R.length v := by
      rcases lt_or_le 0 (Vec3R.length v) with h | h
      · exact h
      · exfalso
        have h0 : Vec3R.length v = 0 := le_antisymm h (lengthR_nonneg v)
        have : Vec3R.lengthSquare v = 0 := by
          rw [← mul_self_lengthR, h0, mul_zero]
        nlinarith [mul_self_nonneg L]
    have hval : clampVec v L = (L / Vec3R.length v) • v := by
      unfold clampVec Vec3R.getUnit
      rw [if_pos hcond, smulR_smulR]
      ring_nf
    have hlen : Vec3R.length (clampVec v L) = L := by
      rw [hval, lengthR_smul, abs_of_nonneg (div_nonneg hL (le_of_lt hlenpos)),
        div_mul_cancel₀ _ (ne_of_gt hlenpos)]
    refine ⟨le_of_eq hlen, ?_, fun _ => ⟨hlen, hval⟩⟩
    intro hle
    exfalso
    exact absurd ((lengthR_le_iff v L hL).mp hle) (not_le.mpr hcond)
  · have hval : clampVec v L = v := by
      unfold clampVec
      rw [if_neg hcond]
    have hle : Vec3R.length v ≤ L := (lengthR_le_iff v L hL).mpr (not_lt.mp hcond)
    refine ⟨by rwa [hval], fun _ => hval, ?_⟩
    intro hgt
    exact absurd hle (not_le.mpr hgt)

/-- C5 (witness).  Instantiation at `v = (3,4,0)` and `L = 1 ≥ 0`. -/
theorem c5_witness :
    (0 : ℝ) ≤ 1 ∧
    (Vec3R.length (clampVec ⟨3, 4, 0⟩ 1) ≤ 1 ∧
     (Vec3R.length ⟨3, 4, 0⟩ ≤ 1 → clampVec ⟨3, 4, 0⟩ 1 = ⟨3, 4, 0⟩) ∧
     (1 < Vec3R.length ⟨3, 4, 0⟩ →
       Vec3R.length (clampVec ⟨3, 4, 0⟩ 1) = 1 ∧
       clampVec ⟨3, 4, 0⟩ 1 = (1 / Vec3R.length ⟨3, 4, 0⟩) • ⟨3, 4, 0⟩)) :=
  ⟨by norm_num, c5_clamp_length ⟨3, 4, 0⟩ 1 (by norm_num)⟩

/-! ## Scalar clamp and quadratic-form helpers for the segment-segment query -/

theorem MACHINE_EPSILON_pos : (0 : ℚ) < MACHINE_EPSILON := by
  norm_num [MACHINE_EPSILON]

theorem clampD_nonneg (x : ℚ) : 0 ≤ clampD x 0 1 :=
  le_min (le_max_right x 0) zero_le_one

theorem clampD_le_one (x : ℚ) : clampD x 0 1 ≤ 1 :=
  min_le_right _ _

theorem clampD_of_nonpos {x : ℚ} (h : x ≤ 0) : clampD x 0 1 = 0 := by
  unfold clampD
  rw [max_eq_right h, min_eq_left zero_le_one]

theorem clampD_of_one_le {x : ℚ} (h : 1 ≤ x) : clampD x 0 1 = 1 := by
  unfold clampD
  rw [max_eq_left (le_trans zero_le_one h), min_eq_right h]

theorem clampD_of_mem {x : ℚ} (h0 : 0 ≤ x) (h1 : x ≤ 1) : clampD x 0 1 = x := by
  unfold clampD
  rw [max_eq_left h0, min_eq_left h1]

theorem KKTCoord_slope {g v : ℚ} (hk : KKTCoord g v) {y : ℚ} (hy0 : 0 ≤ y) (hy1 : y ≤ 1) :
    0 ≤ g * (y - v) := by
  rcases hk with ⟨hv, hg⟩ | ⟨hv, hg⟩ | hg
  · subst hv
    exact mul_nonneg hg (by linarith)
  · subst hv
    nlinarith [mul_nonneg (neg_nonneg.mpr hg) (neg_nonneg.mpr (show y - 1 ≤ 0 by linarith))]
  · rw [hg, zero_mul]

theorem quad_form_nonneg {a e b : ℚ} (ha : 0 ≤ a) (he : 0 ≤ e) (hcs : b ^ 2 ≤ a * e)
    (u w : ℚ) : 0 ≤ a * u ^ 2 - 2 * b * u * w + e * w ^ 2 := by
  rcases eq_or_lt_of_le ha with h0 | hpos
  · have hb : b = 0 := by
      have hb2 : b ^ 2 ≤ 0 := by rw [← h0] at hcs; linarith [hcs]
      have := sq_nonneg b
      have : b ^ 2 = 0 := le_antisymm hb2 this
      exact pow_eq_zero_iff (n := 2) (by norm_num) |>.mp this
    subst hb
    rw [← h0]
    have := sq_nonneg w
    nlinarith
  · nlinarith [sq_nonneg (a * u - b * w), mul_nonneg (sub_nonneg.mpr hcs) (sq_nonneg w)]

theorem kkt_global_min (a e b c f rho : ℚ) (ha : 0 ≤ a) (he : 0 ≤ e) (hcs : b ^ 2 ≤ a * e)
    (sb tb : ℚ)
    (hks : KKTCoord (a * sb - b * tb + c) sb) (hkt : KKTCoord (e * tb - b * sb - f) tb) :
    ∀ s t, 0 ≤ s → s ≤ 1 → 0 ≤ t → t ≤ 1 →
      segDistQuad a e b c f rho sb tb ≤ segDistQuad a e b c f rho s t := by
  intro s t hs0 hs1 ht0 ht1
  have h1 := KKTCoord_slope hks hs0 hs1
  have h2 := KKTCoord_slope hkt ht0 ht1
  have hq := quad_form_nonneg ha he hcs (s - sb) (t - tb)
  have hid : segDistQuad a e b c f rho s t - segDistQuad a e b c f rho sb tb =
      2 * ((a * sb - b * tb + c) * (s - sb)) + 2 * ((e * tb - b * sb - f) * (t - tb)) +
      (a * (s - sb) ^ 2 - 2 * b * (s - sb) * (t - tb) + e * (t - tb) ^ 2) := by
    unfold segDistQuad
    ring
  linarith

theorem kkt_unique (a e b c f : ℚ) (ha : 0 < a) (hd : b ^ 2 < a * e)
    (s1 t1 s2 t2 : ℚ)
    (hs10 : 0 ≤ s1) (hs11 : s1 ≤ 1) (ht10 : 0 ≤ t1) (ht11 : t1 ≤ 1)
    (hs20 : 0 ≤ s2) (hs21 : s2 ≤ 1) (ht20 : 0 ≤ t2) (ht21 : t2 ≤ 1)
    (hk1s : KKTCoord (a * s1 - b * t1 + c) s1) (hk1t : KKTCoord (e * t1 - b * s1 - f) t1)
    (hk2s : KKTCoord (a * s2 - b * t2 + c) s2) (hk2t : KKTCoord (e * t2 - b * s2 - f) t2) :
    s1 = s2 ∧ t1 = t2 := by
  have h12s := KKTCoord_slope hk1s hs20 hs21
  have h12t := KKTCoord_slope hk1t ht20 ht21
  have h21s := KKTCoord_slope hk2s hs10 hs11
  have h21t := KKTCoord_slope hk2t ht10 ht11
  have key : a * (s1 - s2) ^ 2 - 2 * b * (s1 - s2) * (t1 - t2) + e * (t1 - t2) ^ 2 ≤ 0 := by
    nlinarith [h12s, h12t, h21s, h21t]
  have ht : t1 - t2 = 0 := by
    have hsq : (t1 - t2) ^ 2 ≤ 0 := by
      nlinarith [sq_nonneg (a * (s1 - s2) - b * (t1 - t2)), mul_le_mul_of_nonneg_left key ha.le]
    have : (t1 - t2) ^ 2 = 0 := le_antisymm hsq (sq_nonneg _)
    exact pow_eq_zero_iff (n := 2) (by norm_num) |>.mp this
  have hs : s1 - s2 = 0 := by
    rw [ht] at key
    simp only [mul_zero, zero_pow, ne_eq, OfNat.ofNat_ne_zero, not_false_iff, add_zero,
      sub_zero] at key
    have hsq : (s1 - s2) ^ 2 ≤ 0 := by nlinarith [key]
    have : (s1 - s2) ^ 2 = 0 := le_antisymm hsq (sq_nonneg _)
    exact pow_eq_zero_iff (n := 2) (by norm_num) |>.mp this
  constructor <;> linarith

theorem kkt_clamp_line (a c : ℚ) (ha : 0 < a) :
    KKTCoord (a * clampD (-c / a) 0 1 + c) (clampD (-c / a) 0 1) := by
  rcases le_or_lt (-c / a) 0 with hle | hpos
  · rw [clampD_of_nonpos hle]
    left
    refine ⟨rfl, ?_⟩
    rw [div_nonpos_iff] at hle
    rcases hle with ⟨h1, _⟩ | ⟨_, h2⟩
    · linarith
    · linarith
  · rcases le_or_lt 1 (-c / a) with hge | hlt
    · rw [clampD_of_one_le hge]
      right; left
      refine ⟨rfl, ?_⟩
      rw [le_div_iff₀ ha] at hge
      linarith
    · rw [clampD_of_mem hpos.le hlt.le]
      right; right
      field_simp
      ring

/-! ## Branch inequalities for the t-reclamping cases -/

theorem aux_goal_split (a b c f : ℚ) (ha : 0 < a)
    (h0 : 0 ≤ c → f ≤ 0) (h1 : a ≤ -c → b + f ≤ 0)
    (hmid : c < 0 → -c < a → a * f ≤ b * c) :
    b * clampD (-c / a) 0 1 + f ≤ 0 := by
  rcases le_or_lt (-c / a) 0 with hσ | hσ
  · rw [clampD_of_nonpos hσ, mul_zero, zero_add]
    apply h0
    by_contra hcc
    push_neg at hcc
    exact absurd (div_pos (by linarith) ha) (not_lt.mpr hσ)
  · rcases le_or_lt 1 (-c / a) with hσ1 | hσ1
    · rw [clampD_of_one_le hσ1, mul_one]
      exact h1 (by rwa [le_div_iff₀ ha, one_mul] at hσ1)
    · have hcneg : c < 0 := by
        by_contra hcc
        push_neg at hcc
        have : -c / a ≤ 0 := div_nonpos_iff.mpr (Or.inr ⟨by linarith, ha.le⟩)
        linarith
      have hca : -c < a := by
        have := (div_lt_one ha).mp hσ1
        linarith
      rw [clampD_of_mem hσ.le hσ1.le]
      have hrw : b * (-c / a) + f = (a * f - b * c) / a := by
        field_simp
        ring
      rw [hrw]
      exact div_nonpos_iff.mpr (Or.inr ⟨by linarith [hmid hcneg hca], ha.le⟩)

theorem klow_clamp0_corner1 (a b c e f : ℚ) (he : 0 < e) (hd : 0 < a * e - b ^ 2)
    (hbfce : b * f ≤ c * e) (hf : f < 0) (hac : a ≤ -c) : b + f ≤ 0 := by
  rcases le_or_lt b 0 with hb | hb
  · linarith
  · have h1 : c * e ≤ -a * e := by
      nlinarith [mul_le_mul_of_nonneg_right (show c ≤ -a by linarith) he.le]
    have h2 : b * f ≤ -(b ^ 2) := by nlinarith
    by_contra hcon
    push_neg at hcon
    nlinarith [mul_pos hb hcon]

theorem klow_clamp0_mid (a b c e f : ℚ) (ha : 0 < a) (he : 0 < e) (hd : 0 < a * e - b ^ 2)
    (hbfce : b * f ≤ c * e) (hf : f < 0) (hc : c < 0) : a * f ≤ b * c := by
  rcases le_or_lt b 0 with hb | hb
  · have hbc : 0 ≤ b * c := by nlinarith [mul_nonneg (neg_nonneg.mpr hb) (neg_nonneg.mpr hc.le)]
    nlinarith [mul_pos ha (neg_pos.mpr hf)]
  · have h1 : a * e * f ≤ b ^ 2 * f := by nlinarith [mul_nonneg hd.le (neg_nonneg.mpr hf.le)]
    have h2 : b * (b * f) ≤ b * (c * e) := mul_le_mul_of_nonneg_left hbfce hb.le
    by_contra hcon
    push_neg at hcon
    nlinarith [mul_lt_mul_of_pos_right hcon he]

theorem klow_clamp1_corner0 (a b c e f : ℚ) (he : 0 < e) (hd : 0 < a * e - b ^ 2)
    (hbf : b + f < 0) (hDle : a * e - b ^ 2 ≤ b * f - c * e) (hc : 0 ≤ c) : f ≤ 0 := by
  by_contra hcon
  push_neg at hcon
  have hb : b < 0 := by linarith
  nlinarith [mul_pos (neg_pos.mpr hb) hcon, mul_nonneg hc he.le]

theorem klow_clamp1_mid (a b c e f : ℚ) (ha : 0 < a) (he : 0 < e) (hd : 0 < a * e - b ^ 2)
    (hbf : b + f < 0) (hDle : a * e - b ^ 2 ≤ b * f - c * e) (hc : c < 0) (hca : -c < a) :
    a * f ≤ b * c := by
  rcases lt_trichotomy b 0 with hb | hb | hb
  · by_contra hcon
    push_neg at hcon
    rcases le_or_lt f 0 with hflb | hfpos
    · nlinarith [mul_pos (neg_pos.mpr hb) (neg_pos.mpr hc), mul_nonneg ha.le (neg_nonneg.mpr hflb)]
    · have hfb : f < -b := by linarith
      have k1 : b * c * e < a * f * e := mul_lt_mul_of_pos_right hcon he
      have k2 : f * (a * e - b ^ 2) < -b * (a * e - b ^ 2) := mul_lt_mul_of_pos_right hfb hd
      nlinarith [k1, k2]
  · exfalso
    rw [hb] at hbf hDle
    have hce : 0 < -(c * e) := by nlinarith [mul_pos (neg_pos.mpr hc) he]
    nlinarith [hDle, hce]
  · exfalso
    have h1 : -(c * e) < a * e := by nlinarith [mul_lt_mul_of_pos_right hca he]
    nlinarith [hDle, h1, mul_pos hb (show 0 < -b - f by linarith)]

theorem klow_interior_corner0 (a b c e f : ℚ) (ha : 0 < a) (he : 0 < e)
    (hd : 0 < a * e - b ^ 2) (hafbc : a * f < b * c) (h0lt : 0 < b * f - c * e) (hc : 0 ≤ c) :
    f ≤ 0 := by
  rcases le_or_lt 0 b with hb | hb
  · have h1 : a * f * e < b * c * e := mul_lt_mul_of_pos_right hafbc he
    have h2 : b * (c * e) ≤ b * (b * f) := mul_le_mul_of_nonneg_left (by linarith) hb
    by_contra hcon
    push_neg at hcon
    nlinarith [h1, h2, mul_pos hd hcon]
  · have hbc : b * c ≤ 0 := by nlinarith [mul_nonneg (neg_nonneg.mpr hb.le) hc]
    by_contra hcon
    push_neg at hcon
    nlinarith [hafbc, hbc, mul_pos ha hcon]

theorem klow_interior_corner1 (a b c e f : ℚ) (ha : 0 < a) (hd : 0 < a * e - b ^ 2)
    (hafbc : a * f < b * c) (hlt1 : b * f - c * e < a * e - b ^ 2) (hac : a ≤ -c) :
    b + f ≤ 0 := by
  rcases lt_trichotomy b 0 with hb | hb | hb
  · exfalso
    have k1 : b * (b * c) < b * (a * f) := mul_lt_mul_of_neg_left hafbc hb
    have k2 : a * (b * f - c * e) < a * (a * e - b ^ 2) := mul_lt_mul_of_pos_left hlt1 ha
    have k3 : a * (a * e - b ^ 2) ≤ -c * (a * e - b ^ 2) :=
      mul_le_mul_of_nonneg_right (by linarith) hd.le
    nlinarith [k1, k2, k3]
  · exfalso
    rw [hb] at hafbc
    nlinarith [hafbc]
  · have h1 : b * c ≤ b * (-a) := mul_le_mul_of_nonneg_left (by linarith) hb.le
    by_contra hcon
    push_neg at hcon
    nlinarith [hafbc, h1, mul_pos ha hcon]

theorem aux_klow (a b c e f : ℚ) (ha : 0 < a) (he : 0 < e) (hd : 0 < a * e - b ^ 2)
    (hlow : b * clampD ((b * f - c * e) / (a * e - b ^ 2)) 0 1 + f < 0) :
    b * clampD (-c / a) 0 1 + f ≤ 0 := by
  rcases le_or_lt ((b * f - c * e) / (a * e - b ^ 2)) 0 with hs1 | hs1pos
  · -- the line-line parameter clamps to 0: hlow says f < 0
    rw [clampD_of_nonpos hs1, mul_zero, zero_add] at hlow
    have hbfce : b * f ≤ c * e := by
      rcases div_nonpos_iff.mp hs1 with ⟨_, hden⟩ | ⟨hnum, _⟩
      · linarith
      · linarith
    apply aux_goal_split a b c f ha
    · intro _
      linarith
    · intro hac
      exact klow_clamp0_corner1 a b c e f he hd hbfce hlow hac
    · intro hc _
      exact klow_clamp0_mid a b c e f ha he hd hbfce hlow hc
  · rcases le_or_lt 1 ((b * f - c * e) / (a * e - b ^ 2)) with hs1one | hs1lt
    · -- the line-line parameter clamps to 1: hlow says b + f < 0
      rw [clampD_of_one_le hs1one, mul_one] at hlow
      have hDle : a * e - b ^ 2 ≤ b * f - c * e := by
        rwa [le_div_iff₀ hd, one_mul] at hs1one
      apply aux_goal_split a b c f ha
      · intro hc
        exact klow_clamp1_corner0 a b c e f he hd hlow hDle hc
      · intro _
        linarith
      · intro hc hca
        exact klow_clamp1_mid a b c e f ha he hd hlow hDle hc hca
    · -- the line-line parameter is interior
      rw [clampD_of_mem hs1pos.le hs1lt.le] at hlow
      have hkey : b * ((b * f - c * e) / (a * e - b ^ 2)) + f
          = e * (a * f - b * c) / (a * e - b ^ 2) := by
        field_simp
        ring
      rw [hkey] at hlow
      have hafbc : a * f < b * c := by
        have hnum : e * (a * f - b * c) < 0 := by
          by_contra hcon
          push_neg at hcon
          exact absurd (div_nonneg hcon hd.le) (not_le.mpr hlow)
        nlinarith [hnum]
      have h0lt : 0 < b * f - c * e := by
        rcases div_pos_iff.mp hs1pos with ⟨hnum, _⟩ | ⟨_, hden⟩
        · linarith
        · linarith
      have hlt1 : b * f - c * e < a * e - b ^ 2 := by
        rwa [div_lt_one hd] at hs1lt
      apply aux_goal_split a b c f ha
      · intro hc
        exact klow_interior_corner0 a b c e f ha he hd hafbc h0lt hc
      · intro hac
        exact klow_interior_corner1 a b c e f ha hd hafbc hlt1 hac
      · intro _ _
        linarith

theorem aux_klow_par (a b c e f : ℚ) (ha : 0 < a) (he : 0 < e)
    (hpar : a * e = b ^ 2) (haf : a * f = b * c) (hf : f < 0) :
    b * clampD (-c / a) 0 1 + f ≤ 0 := by
  apply aux_goal_split a b c f ha
  · intro _
    linarith
  · intro hac
    rcases lt_trichotomy b 0 with hb | hb | hb
    · exfalso
      have hc : c < 0 := by linarith
      nlinarith [mul_pos (neg_pos.mpr hb) (neg_pos.mpr hc), mul_pos ha (neg_pos.mpr hf)]
    · exfalso
      rw [hb] at hpar
      nlinarith [mul_pos ha he]
    · have h1 : b * c ≤ b * (-a) := by nlinarith
      have h2 : a * f ≤ -(a * b) := by nlinarith [haf, h1]
      by_contra hcon
      push_neg at hcon
      nlinarith [mul_pos ha hcon, h2]
  · intro _ _
    linarith [haf]

theorem closestSegmentParams_mem (a e b c f : ℚ) :
    0 ≤ (closestSegmentParams a e b c f).1 ∧ (closestSegmentParams a e b c f).1 ≤ 1 ∧
    0 ≤ (closestSegmentParams a e b c f).2 ∧ (closestSegmentParams a e b c f).2 ≤ 1 := by
  simp only [closestSegmentParams]
  split_ifs with h1 h2 h3 h4 h5 h6 h7 h8
  · exact ⟨le_rfl, zero_le_one, le_rfl, zero_le_one⟩
  · exact ⟨le_rfl, zero_le_one, clampD_nonneg _, clampD_le_one _⟩
  · exact ⟨clampD_nonneg _, clampD_le_one _, le_rfl, zero_le_one⟩
  · exact ⟨clampD_nonneg _, clampD_le_one _, le_rfl, zero_le_one⟩
  · exact ⟨clampD_nonneg _, clampD_le_one _, zero_le_one, le_rfl⟩
  · exact ⟨clampD_nonneg _, clampD_le_one _, not_lt.mp h5, not_lt.mp h6⟩
  · exact ⟨clampD_nonneg _, clampD_le_one _, le_rfl, zero_le_one⟩
  · exact ⟨clampD_nonneg _, clampD_le_one _, zero_le_one, le_rfl⟩
  · exact ⟨le_rfl, zero_le_one, not_lt.mp h7, not_lt.mp h8⟩

theorem closestSegmentParams_kkt (a e b c f : ℚ)
    (ha : MACHINE_EPSILON < a) (he : MACHINE_EPSILON < e)
    (hcs : b ^ 2 ≤ a * e)
    (hpar : a * e = b ^ 2 → a * f = b * c) :
    KKTCoord (a * (closestSegmentParams a e b c f).1 - b * (closestSegmentParams a e b c f).2 + c)
      (closestSegmentParams a e b c f).1 ∧
    KKTCoord (e * (closestSegmentParams a e b c f).2 - b * (closestSegmentParams a e b c f).1 - f)
      (closestSegmentParams a e b c f).2 := by
  have ha0 : 0 < a := lt_trans MACHINE_EPSILON_pos ha
  have he0 : 0 < e := lt_trans MACHINE_EPSILON_pos he
  have hbb : a * e - b * b = a * e - b ^ 2 := by ring
  simp only [closestSegmentParams]
  split_ifs with h1 h2 h3 h4 h5 h6 h7 h8
  · exact absurd h1.1 (not_le.mpr ha)
  · exact absurd h2 (not_le.mpr ha)
  · exact absurd h3 (not_le.mpr he)
  · -- general, non-parallel, t0 < 0: output (clampD (-c/a) 0 1, 0)
    rw [hbb] at h4 h5
    have hD : 0 < a * e - b ^ 2 := lt_of_le_of_ne (by linarith) (Ne.symm h4)
    have hlow : b * clampD ((b * f - c * e) / (a * e - b ^ 2)) 0 1 + f < 0 := by
      rcases div_neg_iff.mp h5 with ⟨hnum, hden⟩ | ⟨hnum, _⟩
      · linarith
      · exact hnum
    constructor
    · have hg : a * (clampD (-c / a) 0 1, (0 : ℚ)).1 - b * (clampD (-c / a) 0 1, (0 : ℚ)).2 + c
          = a * clampD (-c / a) 0 1 + c := by
        dsimp only
        ring
      rw [hg]
      exact kkt_clamp_line a c ha0
    · left
      refine ⟨rfl, ?_⟩
      have := aux_klow a b c e f ha0 he0 hD hlow
      dsimp only
      linarith
  · -- general, non-parallel, t0 > 1: output (clampD ((b - c)/a) 0 1, 1)
    rw [hbb] at h4 h5 h6
    have hD : 0 < a * e - b ^ 2 := lt_of_le_of_ne (by linarith) (Ne.symm h4)
    have harg2 : (b - c) / a = -(c - b) / a := by ring
    have hgt : e < b * clampD ((b * f - c * e) / (a * e - b ^ 2)) 0 1 + f := by
      have := (one_lt_div he0).mp h6
      linarith
    have hlow2 : -b * clampD ((b * f - c * e) / (a * e - b ^ 2)) 0 1 + (e - f) < 0 := by
      linarith
    have harg : (-b * (e - f) - (c - b) * e) / (a * e - (-b) ^ 2)
        = (b * f - c * e) / (a * e - b ^ 2) := by ring
    have haux := aux_klow a (-b) (c - b) e (e - f) ha0 he0
      (by rw [neg_sq]; exact hD) (by rw [harg]; exact hlow2)
    rw [harg2]
    constructor
    · have hg : a * (clampD (-(c - b) / a) 0 1, (1 : ℚ)).1
          - b * (clampD (-(c - b) / a) 0 1, (1 : ℚ)).2 + c
          = a * clampD (-(c - b) / a) 0 1 + (c - b) := by
        dsimp only
        ring
      rw [hg]
      exact kkt_clamp_line a (c - b) ha0
    · right; left
      refine ⟨rfl, ?_⟩
      dsimp only
      linarith
  · -- general, non-parallel, t0 in [0, 1]: output (s0, t0)
    rw [hbb] at h4 h5 h6
    have hD : 0 < a * e - b ^ 2 := lt_of_le_of_ne (by linarith) (Ne.symm h4)
    have hecancel : e * ((b * clampD ((b * f - c * e) / (a * e - b ^ 2)) 0 1 + f) / e)
        = b * clampD ((b * f - c * e) / (a * e - b ^ 2)) 0 1 + f :=
      mul_div_cancel₀ _ (ne_of_gt he0)
    constructor
    · -- s-coordinate KKT, by position of the line-line parameter
      dsimp only
      rw [hbb]
      rcases le_or_lt ((b * f - c * e) / (a * e - b ^ 2)) 0 with hp | hppos
      · have hbfce : b * f ≤ c * e := by
          rcases div_nonpos_iff.mp hp with ⟨_, hden⟩ | ⟨hnum, _⟩
          · linarith
          · linarith
        rw [clampD_of_nonpos hp]
        left
        refine ⟨rfl, ?_⟩
        have hdive : b * ((b * 0 + f) / e) = b * f / e := by ring_nf
        have : b * f / e ≤ c := by
          rw [div_le_iff₀ he0]
          linarith
        rw [hdive]
        linarith
      · rcases le_or_lt 1 ((b * f - c * e) / (a * e - b ^ 2)) with hp1 | hplt
        · have hDle : a * e - b ^ 2 ≤ b * f - c * e := by
            rwa [le_div_iff₀ hD, one_mul] at hp1
          rw [clampD_of_one_le hp1]
          right; left
          refine ⟨rfl, ?_⟩
          have hrw : a * 1 - b * ((b * 1 + f) / e) + c
              = (a * e + c * e - b * (b * 1 + f)) / e := by
            field_simp
            ring
          rw [hrw]
          apply div_nonpos_iff.mpr
          right
          exact ⟨by nlinarith [hDle], he0.le⟩
        · rw [clampD_of_mem hppos.le hplt.le]
          right; right
          have hexp : (b * f - c * e) / (a * e - b ^ 2) * (a * e - b ^ 2) = b * f - c * e :=
            div_mul_cancel₀ _ (ne_of_gt hD)
          field_simp
          ring
    · -- t-coordinate KKT: the partial in t vanishes by construction
      dsimp only
      rw [hbb]
      right; right
      rw [hecancel]
      ring
  · -- parallel, t0 < 0: output (clampD (-c/a) 0 1, 0)
    rw [hbb] at h4
    have hD0 : a * e = b ^ 2 := by
      rcases not_not.mp h4 with h
      linarith [sub_eq_zero.mp h]
    have haf := hpar hD0
    have hf : f < 0 := by
      rcases div_neg_iff.mp h7 with ⟨hnum, hden⟩ | ⟨hnum, _⟩
      · linarith
      · linarith
    constructor
    · have hg : a * (clampD (-c / a) 0 1, (0 : ℚ)).1 - b * (clampD (-c / a) 0 1, (0 : ℚ)).2 + c
          = a * clampD (-c / a) 0 1 + c := by
        dsimp only
        ring
      rw [hg]
      exact kkt_clamp_line a c ha0
    · left
      refine ⟨rfl, ?_⟩
      have := aux_klow_par a b c e f ha0 he0 hD0 haf hf
      dsimp only
      linarith
  · -- parallel, t0 > 1: output (clampD ((b - c)/a) 0 1, 1)
    rw [hbb] at h4
    have hD0 : a * e = b ^ 2 := by
      rcases not_not.mp h4 with h
      linarith [sub_eq_zero.mp h]
    have haf := hpar hD0
    have hfe : e < f := by
      have := (one_lt_div he0).mp h8
      linarith
    have harg2 : (b - c) / a = -(c - b) / a := by ring
    have haux := aux_klow_par a (-b) (c - b) e (e - f) ha0 he0
      (by rw [neg_sq]; exact hD0) (by linear_combination hD0 - haf) (by linarith)
    rw [harg2]
    constructor
    · have hg : a * (clampD (-(c - b) / a) 0 1, (1 : ℚ)).1
          - b * (clampD (-(c - b) / a) 0 1, (1 : ℚ)).2 + c
          = a * clampD (-(c - b) / a) 0 1 + (c - b) := by
        dsimp only
        ring
      rw [hg]
      exact kkt_clamp_line a (c - b) ha0
    · right; left
      refine ⟨rfl, ?_⟩
      dsimp only
      linarith
  · -- parallel, t0 in [0, 1]: output (0, t0)
    rw [hbb] at h4
    have hD0 : a * e = b ^ 2 := by
      rcases not_not.mp h4 with h
      linarith [sub_eq_zero.mp h]
    have haf := hpar hD0
    have hce : c * e = b * f := by
      have h1 : a * (c * e - b * f) = 0 := by linear_combination c * hD0 - b * haf
      rcases mul_eq_zero.mp h1 with h | h
      · exact absurd h (ne_of_gt ha0)
      · linarith
    constructor
    · dsimp only
      right; right
      have hdive : b * ((b * 0 + f) / e) = b * f / e := by ring_nf
      rw [hdive]
      rw [show b * f = c * e from hce.symm]
      rw [mul_div_assoc, div_self (ne_of_gt he0)]
      ring
    · dsimp only
      right; right
      rw [mul_div_cancel₀ _ (ne_of_gt he0)]
      ring

theorem lengthSquare_nonneg (v : Vec3) : 0 ≤ lengthSquare v := by
  simp only [Vec3.lengthSquare, Vec3.dot]
  nlinarith [mul_self_nonneg v.x, mul_self_nonneg v.y, mul_self_nonneg v.z]

theorem dot_sq_le (u v : Vec3) : (dot u v) ^ 2 ≤ lengthSquare u * lengthSquare v := by
  simp only [Vec3.lengthSquare, Vec3.dot]
  nlinarith [sq_nonneg (u.x * v.y - u.y * v.x), sq_nonneg (u.x * v.z - u.z * v.x),
    sq_nonneg (u.y * v.z - u.z * v.y)]

theorem eq_zero_of_lengthSquare_eq_zero {v : Vec3} (h : lengthSquare v = 0) : v = ⟨0, 0, 0⟩ := by
  simp only [Vec3.lengthSquare, Vec3.dot] at h
  rw [Vec3.ext_iff]
  refine ⟨?_, ?_, ?_⟩ <;>
    [skip; skip; skip] <;>
    apply mul_self_eq_zero.mp <;>
    nlinarith [mul_self_nonneg v.x, mul_self_nonneg v.y, mul_self_nonneg v.z]

theorem dot_zero_left (w : Vec3) : dot ⟨0, 0, 0⟩ w = 0 := by
  simp [Vec3.dot]

theorem dot_zero_right (u : Vec3) : dot u ⟨0, 0, 0⟩ = 0 := by
  simp [Vec3.dot]

theorem distSq_segPoint (p1 q1 p2 q2 : Vec3) (s t : ℚ) :
    distSq (segPoint p1 q1 s) (segPoint p2 q2 t)
      = segDistQuad (lengthSquare (q1 - p1)) (lengthSquare (q2 - p2))
          (dot (q1 - p1) (q2 - p2)) (dot (q1 - p1) (p1 - p2)) (dot (q2 - p2) (p1 - p2))
          (lengthSquare (p1 - p2)) s t := by
  simp only [distSq, segPoint, segDistQuad, Vec3.lengthSquare, Vec3.dot, Vec3.add_x, Vec3.add_y,
    Vec3.add_z, Vec3.sub_x, Vec3.sub_y, Vec3.sub_z, Vec3.smul_x, Vec3.smul_y, Vec3.smul_z]
  ring

theorem parallel_dot_relation (u v r : Vec3)
    (hpar : lengthSquare u * lengthSquare v = (dot u v) ^ 2) :
    lengthSquare u * dot v r = dot u v * dot u r := by
  rcases eq_or_ne (lengthSquare u) 0 with h0 | hne
  · have hu : u = ⟨0, 0, 0⟩ := eq_zero_of_lengthSquare_eq_zero h0
    rw [h0, hu, dot_zero_left, dot_zero_left]
    ring
  · have hw : lengthSquare u • v - dot u v • u = ⟨0, 0, 0⟩ := by
      apply eq_zero_of_lengthSquare_eq_zero
      simp only [Vec3.lengthSquare, Vec3.dot, Vec3.sub_x, Vec3.sub_y, Vec3.sub_z, Vec3.smul_x,
        Vec3.smul_y, Vec3.smul_z] at hpar ⊢
      linear_combination (u.x * u.x + u.y * u.y + u.z * u.z) * hpar
    have hx := congrArg Vec3.x hw
    have hy := congrArg Vec3.y hw
    have hz := congrArg Vec3.z hw
    simp only [Vec3.lengthSquare, Vec3.dot, Vec3.sub_x, Vec3.sub_y, Vec3.sub_z, Vec3.smul_x,
      Vec3.smul_y, Vec3.smul_z] at hx hy hz
    simp only [Vec3.lengthSquare, Vec3.dot]
    linear_combination r.x * hx + r.y * hy + r.z * hz

theorem closestSegmentParams_kkt_full (a e b c f : ℚ)
    (hA : a = 0 ∨ MACHINE_EPSILON < a) (hE : e = 0 ∨ MACHINE_EPSILON < e)
    (hcs : b ^ 2 ≤ a * e)
    (hZA : a = 0 → b = 0 ∧ c = 0)
    (hZE : e = 0 → b = 0 ∧ f = 0)
    (hpar : a * e = b ^ 2 → a * f = b * c) :
    KKTCoord (a * (closestSegmentParams a e b c f).1 - b * (closestSegmentParams a e b c f).2 + c)
      (closestSegmentParams a e b c f).1 ∧
    KKTCoord (e * (closestSegmentParams a e b c f).2 - b * (closestSegmentParams a e b c f).1 - f)
      (closestSegmentParams a e b c f).2 := by
  rcases hA with hA | hA
  · obtain ⟨hb, hc⟩ := hZA hA
    subst hA hb hc
    rcases hE with hE | hE
    · obtain ⟨-, hf⟩ := hZE hE
      subst hE hf
      have hst : closestSegmentParams 0 0 0 0 0 = (0, 0) := by
        unfold closestSegmentParams
        rw [if_pos ⟨MACHINE_EPSILON_pos.le, MACHINE_EPSILON_pos.le⟩]
      rw [hst]
      constructor
      · right; right; ring
      · right; right; ring
    · have he0 : 0 < e := lt_trans MACHINE_EPSILON_pos hE
      have hst : closestSegmentParams 0 e 0 0 f = (0, clampD (f / e) 0 1) := by
        unfold closestSegmentParams
        rw [if_neg (fun h => absurd h.2 (not_le.mpr hE)), if_pos MACHINE_EPSILON_pos.le]
      rw [hst]
      constructor
      · right; right
        dsimp only
        ring
      · dsimp only
        have harg : f / e = -(-f) / e := by ring
        rw [harg]
        have hg : e * clampD (-(-f) / e) 0 1 - 0 * 0 - f
            = e * clampD (-(-f) / e) 0 1 + -f := by ring
        rw [hg]
        exact kkt_clamp_line e (-f) he0
  · rcases hE with hE | hE
    · obtain ⟨hb, hf⟩ := hZE hE
      subst hE hb hf
      have ha0 : 0 < a := lt_trans MACHINE_EPSILON_pos hA
      have hst : closestSegmentParams a 0 0 c 0 = (clampD (-c / a) 0 1, 0) := by
        unfold closestSegmentParams
        rw [if_neg (fun h => absurd h.1 (not_le.mpr hA)), if_neg (not_le.mpr hA),
          if_pos MACHINE_EPSILON_pos.le]
      rw [hst]
      constructor
      · dsimp only
        have hg : a * clampD (-c / a) 0 1 - 0 * 0 + c = a * clampD (-c / a) 0 1 + c := by ring
        rw [hg]
        exact kkt_clamp_line a c ha0
      · right; right
        dsimp only
        ring
    · exact closestSegmentParams_kkt a e b c f hA hE hcs hpar

/-- C3 (counterexample).  The claim states that the returned pair always
achieves the true minimum distance.  Segment 1 from the origin to
`(1/4096, 0, 0)` has squared length `2^(-24) ≤ MACHINE_EPSILON`, so the code
treats it as the single point `seg1PointA` and returns
`((0,0,0), (1/4096,1,0))` with squared distance `1 + 2^(-24)`; the segment
pair `(s, t) = (1, 0)` realizes squared distance `1`, strictly smaller. -/
theorem c3_counterexample :
    ¬ IsOptimalPair ⟨0,0,0⟩ ⟨1/4096,0,0⟩ ⟨1/4096,1,0⟩ ⟨1/4096,2,0⟩
      (computeClosestPointBetweenTwoSegments ⟨0,0,0⟩ ⟨1/4096,0,0⟩ ⟨1/4096,1,0⟩ ⟨1/4096,2,0⟩) := by
  intro h
  have hle := h.2.2 1 0 zero_le_one le_rfl le_rfl zero_le_one
  norm_num [computeClosestPointBetweenTwoSegments, closestSegmentParams, MACHINE_EPSILON,
    clampD, distSq, segPoint, Vec3.dot, Vec3.lengthSquare, min_def, max_def] at hle

/-- C3 (amended).  For every two segments such that each direction vector
either is exactly zero or has squared length above `MACHINE_EPSILON` (i.e.
no segment falls into the epsilon-degenerate band `0 < |d|² ≤ ε` where the
code collapses it to a point), the two points returned by
`computeClosestPointBetweenTwoSegments` lie on their segments and achieve
the minimum distance over all pairs of segment points (stated on squared
distances, which order exactly as distances do). -/
theorem c3_closest_points_optimal (p1 q1 p2 q2 : Vec3)
    (hA : lengthSquare (q1 - p1) = 0 ∨ MACHINE_EPSILON < lengthSquare (q1 - p1))
    (hE : lengthSquare (q2 - p2) = 0 ∨ MACHINE_EPSILON < lengthSquare (q2 - p2)) :
    IsOptimalPair p1 q1 p2 q2 (computeClosestPointBetweenTwoSegments p1 q1 p2 q2) := by
  have hmem := closestSegmentParams_mem (lengthSquare (q1 - p1)) (lengthSquare (q2 - p2))
    (dot (q1 - p1) (q2 - p2)) (dot (q1 - p1) (p1 - p2)) (dot (q2 - p2) (p1 - p2))
  have hZA : lengthSquare (q1 - p1) = 0 →
      dot (q1 - p1) (q2 - p2) = 0 ∧ dot (q1 - p1) (p1 - p2) = 0 := by
    intro h
    rw [eq_zero_of_lengthSquare_eq_zero h]
    exact ⟨dot_zero_left _, dot_zero_left _⟩
  have hZE : lengthSquare (q2 - p2) = 0 →
      dot (q1 - p1) (q2 - p2) = 0 ∧ dot (q2 - p2) (p1 - p2) = 0 := by
    intro h
    rw [eq_zero_of_lengthSquare_eq_zero h]
    exact ⟨dot_zero_right _, dot_zero_left _⟩
  have hkkt := closestSegmentParams_kkt_full (lengthSquare (q1 - p1)) (lengthSquare (q2 - p2))
    (dot (q1 - p1) (q2 - p2)) (dot (q1 - p1) (p1 - p2)) (dot (q2 - p2) (p1 - p2))
    hA hE (dot_sq_le _ _) hZA hZE
    (fun h => parallel_dot_relation (q1 - p1) (q2 - p2) (p1 - p2) (by linarith))
  unfold IsOptimalPair computeClosestPointBetweenTwoSegments
  refine ⟨⟨_, hmem.1, hmem.2.1, rfl⟩, ⟨_, hmem.2.2.1, hmem.2.2.2, rfl⟩, ?_⟩
  intro s t hs0 hs1 ht0 ht1
  have key := kkt_global_min (lengthSquare (q1 - p1)) (lengthSquare (q2 - p2))
    (dot (q1 - p1) (q2 - p2)) (dot (q1 - p1) (p1 - p2)) (dot (q2 - p2) (p1 - p2))
    (lengthSquare (p1 - p2)) (lengthSquare_nonneg _) (lengthSquare_nonneg _) (dot_sq_le _ _)
    _ _ hkkt.1 hkkt.2 s t hs0 hs1 ht0 ht1
  have h1 := distSq_segPoint p1 q1 p2 q2
    (closestSegmentParams (lengthSquare (q1 - p1)) (lengthSquare (q2 - p2))
      (dot (q1 - p1) (q2 - p2)) (dot (q1 - p1) (p1 - p2)) (dot (q2 - p2) (p1 - p2))).1
    (closestSegmentParams (lengthSquare (q1 - p1)) (lengthSquare (q2 - p2))
      (dot (q1 - p1) (q2 - p2)) (dot (q1 - p1) (p1 - p2)) (dot (q2 - p2) (p1 - p2))).2
  rw [distSq_segPoint p1 q1 p2 q2 s t]
  exact (le_of_eq h1).trans key

/-- C3 (witness).  Instantiation on the skew segments
`((0,0,0), (1,0,0))` and `((0,0,1), (0,1,1))`; both hypotheses hold with
squared lengths `1 > MACHINE_EPSILON`. -/
theorem c3_witness :
    (lengthSquare ((⟨1,0,0⟩ : Vec3) - ⟨0,0,0⟩) = 0 ∨
      MACHINE_EPSILON < lengthSquare ((⟨1,0,0⟩ : Vec3) - ⟨0,0,0⟩)) ∧
    (lengthSquare ((⟨0,1,1⟩ : Vec3) - ⟨0,0,1⟩) = 0 ∨
      MACHINE_EPSILON < lengthSquare ((⟨0,1,1⟩ : Vec3) - ⟨0,0,1⟩)) ∧
    IsOptimalPair ⟨0,0,0⟩ ⟨1,0,0⟩ ⟨0,0,1⟩ ⟨0,1,1⟩
      (computeClosestPointBetweenTwoSegments ⟨0,0,0⟩ ⟨1,0,0⟩ ⟨0,0,1⟩ ⟨0,1,1⟩) :=
  ⟨Or.inr (by norm_num [Vec3.lengthSquare, Vec3.dot, MACHINE_EPSILON]),
   Or.inr (by norm_num [Vec3.lengthSquare, Vec3.dot, MACHINE_EPSILON]),
   c3_closest_points_optimal ⟨0,0,0⟩ ⟨1,0,0⟩ ⟨0,0,1⟩ ⟨0,1,1⟩
     (Or.inr (by norm_num [Vec3.lengthSquare, Vec3.dot, MACHINE_EPSILON]))
     (Or.inr (by norm_num [Vec3.lengthSquare, Vec3.dot, MACHINE_EPSILON]))⟩

/-- C4 (counterexample).  For the anti-parallel overlapping segments
`seg1 = ((0,0,0), (2,0,0))` and `seg2 = ((1,1,0), (-1,1,0))`, the direct run
returns `((0,0,0), (0,1,0))` while the swapped run returns
`((1,1,0), (1,0,0))`: both pairs are optimal (distance 1), but the swapped
run's first point `(1,1,0)` differs from the direct run's second point
`(0,1,0)`, so the outputs are not the same points with roles exchanged. -/
theorem c4_counterexample :
    ¬ ((computeClosestPointBetweenTwoSegments ⟨1,1,0⟩ ⟨-1,1,0⟩ ⟨0,0,0⟩ ⟨2,0,0⟩).1
        = (computeClosestPointBetweenTwoSegments ⟨0,0,0⟩ ⟨2,0,0⟩ ⟨1,1,0⟩ ⟨-1,1,0⟩).2) := by
  norm_num [computeClosestPointBetweenTwoSegments, closestSegmentParams, MACHINE_EPSILON,
    clampD, Vec3.dot, Vec3.lengthSquare, min_def, max_def, Vec3.ext_iff]

theorem closestSegmentParams_swap (a e b c f : ℚ)
    (ha : MACHINE_EPSILON < a) (he : MACHINE_EPSILON < e)
    (hcs : b ^ 2 ≤ a * e) (hne : a * e - b ^ 2 ≠ 0) :
    (closestSegmentParams e a b (-f) (-c)).1 = (closestSegmentParams a e b c f).2 ∧
    (closestSegmentParams e a b (-f) (-c)).2 = (closestSegmentParams a e b c f).1 := by
  have ha0 : 0 < a := lt_trans MACHINE_EPSILON_pos ha
  have hdlt : b ^ 2 < a * e := lt_of_le_of_ne hcs (fun h => hne (by linarith))
  have hm1 := closestSegmentParams_mem a e b c f
  have hm2 := closestSegmentParams_mem e a b (-f) (-c)
  have hk1 := closestSegmentParams_kkt a e b c f ha he hcs
    (fun h => absurd (by linarith : a * e - b ^ 2 = 0) hne)
  have hk2 := closestSegmentParams_kkt e a b (-f) (-c) he ha (by nlinarith)
    (fun h => absurd (show a * e - b ^ 2 = 0 by linear_combination h) hne)
  have hk2s : KKTCoord (a * (closestSegmentParams e a b (-f) (-c)).2
      - b * (closestSegmentParams e a b (-f) (-c)).1 + c)
      (closestSegmentParams e a b (-f) (-c)).2 := by
    have h := hk2.2
    have hg : a * (closestSegmentParams e a b (-f) (-c)).2
        - b * (closestSegmentParams e a b (-f) (-c)).1 - -c
        = a * (closestSegmentParams e a b (-f) (-c)).2
          - b * (closestSegmentParams e a b (-f) (-c)).1 + c := by ring
    rwa [hg] at h
  have hk2t : KKTCoord (e * (closestSegmentParams e a b (-f) (-c)).1
      - b * (closestSegmentParams e a b (-f) (-c)).2 - f)
      (closestSegmentParams e a b (-f) (-c)).1 := by
    have h := hk2.1
    have hg : e * (closestSegmentParams e a b (-f) (-c)).1
        - b * (closestSegmentParams e a b (-f) (-c)).2 + -f
        = e * (closestSegmentParams e a b (-f) (-c)).1
          - b * (closestSegmentParams e a b (-f) (-c)).2 - f := by ring
    rwa [hg] at h
  have huniq := kkt_unique a e b c f ha0 hdlt
    (closestSegmentParams a e b c f).1 (closestSegmentParams a e b c f).2
    (closestSegmentParams e a b (-f) (-c)).2 (closestSegmentParams e a b (-f) (-c)).1
    hm1.1 hm1.2.1 hm1.2.2.1 hm1.2.2.2 hm2.2.2.1 hm2.2.2.2 hm2.1 hm2.2.1
    hk1.1 hk1.2 hk2s hk2t
  exact ⟨huniq.2.symm, huniq.1.symm⟩

theorem closestSegmentParams_swap_degenerate (a e b c f : ℚ)
    (h : a ≤ MACHINE_EPSILON ∨ e ≤ MACHINE_EPSILON) :
    (closestSegmentParams e a b (-f) (-c)).1 = (closestSegmentParams a e b c f).2 ∧
    (closestSegmentParams e a b (-f) (-c)).2 = (closestSegmentParams a e b c f).1 := by
  by_cases hA : a ≤ MACHINE_EPSILON <;> by_cases hE : e ≤ MACHINE_EPSILON
  · -- both segments degenerate: both runs return the two start points
    have h1 : closestSegmentParams a e b c f = (0, 0) := by
      unfold closestSegmentParams
      rw [if_pos ⟨hA, hE⟩]
    have h2 : closestSegmentParams e a b (-f) (-c) = (0, 0) := by
      unfold closestSegmentParams
      rw [if_pos ⟨hE, hA⟩]
    rw [h1, h2]
    exact ⟨rfl, rfl⟩
  · -- only segment 1 degenerate: the swapped run takes the mirrored branch
    have h1 : closestSegmentParams a e b c f = (0, clampD (f / e) 0 1) := by
      unfold closestSegmentParams
      rw [if_neg (fun hh => hE hh.2), if_pos hA]
    have h2 : closestSegmentParams e a b (-f) (-c) = (clampD (-(-f) / e) 0 1, 0) := by
      unfold closestSegmentParams
      rw [if_neg (fun hh => hE hh.1), if_neg hE, if_pos hA]
    rw [h1, h2]
    constructor
    · dsimp only
      rw [show -(-f) / e = f / e by ring]
    · rfl
  · -- only segment 2 degenerate: the swapped run takes the mirrored branch
    have h1 : closestSegmentParams a e b c f = (clampD (-c / a) 0 1, 0) := by
      unfold closestSegmentParams
      rw [if_neg (fun hh => hA hh.1), if_neg hA, if_pos hE]
    have h2 : closestSegmentParams e a b (-f) (-c) = (0, clampD (-c / a) 0 1) := by
      unfold closestSegmentParams
      rw [if_neg (fun hh => hA hh.2), if_pos hE]
    rw [h1, h2]
    exact ⟨rfl, rfl⟩
  · rcases h with h | h
    · exact absurd h hA
    · exact absurd h hE

theorem closestSegmentParams_swap_full (a e b c f : ℚ)
    (h : a ≤ MACHINE_EPSILON ∨ e ≤ MACHINE_EPSILON ∨ a * e - b ^ 2 ≠ 0)
    (hcs : b ^ 2 ≤ a * e) :
    (closestSegmentParams e a b (-f) (-c)).1 = (closestSegmentParams a e b c f).2 ∧
    (closestSegmentParams e a b (-f) (-c)).2 = (closestSegmentParams a e b c f).1 := by
  by_cases hA : a ≤ MACHINE_EPSILON
  · exact closestSegmentParams_swap_degenerate a e b c f (Or.inl hA)
  · by_cases hE : e ≤ MACHINE_EPSILON
    · exact closestSegmentParams_swap_degenerate a e b c f (Or.inr hE)
    · have hden : a * e - b ^ 2 ≠ 0 := by
        rcases h with h | h | h
        · exact absurd h hA
        · exact absurd h hE
        · exact h
      exact closestSegmentParams_swap a e b c f (not_le.mp hA) (not_le.mp hE) hcs hden

/-- C4 (amended).  Swapping the two input segments yields the same pair of
closest points with their roles exchanged whenever at least one segment is
treated as degenerate (squared length at most `MACHINE_EPSILON` — those
branches of the routine mirror each other exactly under the swap) or the
segments are not parallel (the system determinant `a e − b²`, a symmetric
quantity, is nonzero — then the constrained quadratic has a unique
Karush-Kuhn-Tucker point, which both runs compute).  Only two non-degenerate
exactly-parallel segments may produce different, equally optimal, pairs. -/
theorem c4_swap_symmetric (p1 q1 p2 q2 : Vec3)
    (h : lengthSquare (q1 - p1) ≤ MACHINE_EPSILON ∨
      lengthSquare (q2 - p2) ≤ MACHINE_EPSILON ∨
      lengthSquare (q1 - p1) * lengthSquare (q2 - p2)
        - (dot (q1 - p1) (q2 - p2)) ^ 2 ≠ 0) :
    (computeClosestPointBetweenTwoSegments p2 q2 p1 q1).1
      = (computeClosestPointBetweenTwoSegments p1 q1 p2 q2).2 ∧
    (computeClosestPointBetweenTwoSegments p2 q2 p1 q1).2
      = (computeClosestPointBetweenTwoSegments p1 q1 p2 q2).1 := by
  have hB : dot (q2 - p2) (q1 - p1) = dot (q1 - p1) (q2 - p2) := dot_comm _ _
  have hC : dot (q2 - p2) (p2 - p1) = -(dot (q2 - p2) (p1 - p2)) := by
    simp only [Vec3.dot, Vec3.sub_x, Vec3.sub_y, Vec3.sub_z]
    ring
  have hF : dot (q1 - p1) (p2 - p1) = -(dot (q1 - p1) (p1 - p2)) := by
    simp only [Vec3.dot, Vec3.sub_x, Vec3.sub_y, Vec3.sub_z]
    ring
  have hswap := closestSegmentParams_swap_full (lengthSquare (q1 - p1))
    (lengthSquare (q2 - p2)) (dot (q1 - p1) (q2 - p2)) (dot (q1 - p1) (p1 - p2))
    (dot (q2 - p2) (p1 - p2)) h (dot_sq_le _ _)
  simp only [computeClosestPointBetweenTwoSegments]
  rw [hB, hC, hF]
  rw [hswap.1, hswap.2]
  exact ⟨rfl, rfl⟩

/-- C4 (witness).  Instantiation on the skew segments
`((0,0,0), (1,0,0))` and `((0,0,1), (0,1,1))`, whose determinant is `1`
(the non-parallel disjunct of the hypothesis). -/
theorem c4_witness :
    (lengthSquare ((⟨1,0,0⟩ : Vec3) - ⟨0,0,0⟩) ≤ MACHINE_EPSILON ∨
      lengthSquare ((⟨0,1,1⟩ : Vec3) - ⟨0,0,1⟩) ≤ MACHINE_EPSILON ∨
      lengthSquare ((⟨1,0,0⟩ : Vec3) - ⟨0,0,0⟩) * lengthSquare ((⟨0,1,1⟩ : Vec3) - ⟨0,0,1⟩)
        - (dot ((⟨1,0,0⟩ : Vec3) - ⟨0,0,0⟩) ((⟨0,1,1⟩ : Vec3) - ⟨0,0,1⟩)) ^ 2 ≠ 0) ∧
    ((computeClosestPointBetweenTwoSegments ⟨0,0,1⟩ ⟨0,1,1⟩ ⟨0,0,0⟩ ⟨1,0,0⟩).1
      = (computeClosestPointBetweenTwoSegments ⟨0,0,0⟩ ⟨1,0,0⟩ ⟨0,0,1⟩ ⟨0,1,1⟩).2 ∧
    (computeClosestPointBetweenTwoSegments ⟨0,0,1⟩ ⟨0,1,1⟩ ⟨0,0,0⟩ ⟨1,0,0⟩).2
      = (computeClosestPointBetweenTwoSegments ⟨0,0,0⟩ ⟨1,0,0⟩ ⟨0,0,1⟩ ⟨0,1,1⟩).1) :=
  ⟨Or.inr (Or.inr (by norm_num [Vec3.lengthSquare, Vec3.dot])),
   c4_swap_symmetric ⟨0,0,0⟩ ⟨1,0,0⟩ ⟨0,0,1⟩ ⟨0,1,1⟩
     (Or.inr (Or.inr (by norm_num [Vec3.lengthSquare, Vec3.dot])))⟩
